import Mathlib

/-!
Verification of the watermark placement and batch pipeline of
`watermark_bulk.py` (bulk watermarking tool for comic pages).

Shallow embedding conventions:
- Python arbitrary-precision integers are `Int` (pixel sizes are `Nat`).
- Python floats are modelled as `Rat`; every concrete input used in a
  counterexample below is exactly representable as a binary64 float and all
  arithmetic on it is exact, so the divergences shown are real divergences
  of the Python program, not artifacts of the rational model.
- Python `int(x)` truncates toward zero: `pyTrunc`.
- JSON values loaded from the override file are the inductive `JVal`;
  Python dicts are association lists (`PyDict`) whose observable behavior
  (membership, lookup, `update`) is modelled by `dictGet?` and `dictSet`.
- Fallible Python code (code that can raise) returns `Except String`.
- Filesystem side effects of the pipeline are reified as an effect trace
  (`Eff`): directory creation, file writes, and lines sent to the injected
  log sink.
-/

/-- Python `int(x)` on a real value: truncation toward zero. -/
def pyTrunc (q : ℚ) : ℤ := if 0 ≤ q then ⌊q⌋ else ⌈q⌉

/-- Python `repr` of a bool, as interpolated into f-strings. -/
def pyBoolRepr (b : Bool) : String := if b then "True" else "False"

/-- JSON values, as produced by `json.loads` for the overrides file.
Numbers are rationals (JSON ints and floats). -/
inductive JVal where
  | num (q : ℚ)
  | str (s : String)
  | bool (b : Bool)
  | list (l : List JVal)
  | obj (o : List (String × JVal))
  | null

/-- A Python dict with string keys, as an ordered association list. -/
abbrev PyDict := List (String × JVal)

/-- Python dict lookup (`d[k]` / `d.get(k)`): first entry with the key.
Dicts produced by `json.loads` have unique keys. -/
def dictGet? : PyDict → String → Option JVal
  | [], _ => none
  | (k0, v0) :: rest, k => if k0 = k then some v0 else dictGet? rest k

/-- One step of Python `dict.update`: replace the value at the first
occurrence of the key, else append the new entry. -/
def dictSet : PyDict → String → JVal → PyDict
  | [], k, v => [(k, v)]
  | (k0, v0) :: rest, k, v =>
    if k0 = k then (k, v) :: rest else (k0, v0) :: dictSet rest k v

/-- Python `m.update(d)`: fold the entries of `d` into `m`. -/
def dictUpdate (m d : PyDict) : PyDict :=
  d.foldl (fun acc kv => dictSet acc kv.1 kv.2) m

/-- Lookup of the LAST entry with a given key (used to state the update
lemma without assuming unique keys). -/
def dictGetLast? : PyDict → String → Option JVal
  | [], _ => none
  | (k0, v0) :: rest, k =>
    match dictGetLast? rest k with
    | some v => some v
    | none => if k0 = k then some v0 else none

/-- Keys of a dict. -/
def dictKeys (d : PyDict) : List String := d.map Prod.fst

/-- First-some choice on options. -/
def optOr (a b : Option JVal) : Option JVal :=
  match a with
  | some v => some v
  | none => b

/-- The value of a key when it is present and is itself a mapping
(Python: `key in overrides and isinstance(overrides[key], dict)`). -/
def asObjDict : Option JVal → Option PyDict
  | some (JVal.obj o) => some o
  | _ => none

/-- Source `merge_overrides(name, overrides)`: fold the `"*"`, exact-name
and lower-cased-name entries (those that are mappings) into an accumulator
with `dict.update`. -/
def merge_overrides (name : String) (overrides : PyDict) : PyDict :=
  [ "*", name, name.toLower].foldl
    (fun merged key =>
      match asObjDict (dictGet? overrides key) with
      | some o => dictUpdate merged o
      | none => merged) []

/-- The candidate override dicts actually merged, in merge order
(spec wording: present entries that are themselves mappings, for the three
keys in their fixed order). -/
def candidateDicts (name : String) (overrides : PyDict) : List PyDict :=
  [ "*", name, name.toLower].filterMap (fun k => asObjDict (dictGet? overrides k))

/-- An axis-aligned rectangle `(x, y, width, height)` in page pixels. -/
abbrev Box := ℤ × ℤ × ℤ × ℤ

/-- The five recognized anchor names. -/
def validAnchors : List String :=
  [ "top-left", "top-right", "bottom-left", "bottom-right", "center"]

/-- Source `anchor_position`: unoffset top-left coordinate for an anchor;
an unrecognized anchor raises `ValueError`, modelled as `none`. -/
def anchor_position (anchor : String) (page_w page_h wm_w wm_h margin : ℤ) :
    Option (ℤ × ℤ) :=
  if anchor = "top-left" then some (margin, margin)
  else if anchor = "top-right" then some (page_w - wm_w - margin, margin)
  else if anchor = "bottom-left" then some (margin, page_h - wm_h - margin)
  else if anchor = "bottom-right" then
    some (page_w - wm_w - margin, page_h - wm_h - margin)
  else if anchor = "center" then
    some (Int.fdiv (page_w - wm_w) 2, Int.fdiv (page_h - wm_h) 2)
  else none

/-- Source `boxes_intersect`: rectangles overlap unless one is fully to
one side of the other (touching edges do not count). -/
def boxes_intersect (a b : Box) : Bool :=
  match a, b with
  | (ax, ay, aw, ah), (bx, b_y, bw, bh) =>
    !(decide (ax + aw ≤ bx) || decide (bx + bw ≤ ax) ||
      decide (ay + ah ≤ b_y) || decide (b_y + bh ≤ ay))

/-- Source `fits_inside`: inside page bounds and intersecting no avoid
zone. (The arity guard of the source loop is vacuous here because `Box`
is already a 4-tuple; `compose_watermarked_image` performs the arity
filtering before any `Box` is built.) -/
def fits_inside (x y w h page_w page_h : ℤ) (avoid : List Box) : Bool :=
  if x < 0 ∨ y < 0 ∨ x + w > page_w ∨ y + h > page_h then false
  else avoid.all (fun zone => !boxes_intersect (x, y, w, h) zone)

/-- Source candidate-order loop in `pick_position`: append each of the six
entries unless already present. -/
def orderedAnchors (primary : String) : List String :=
  [primary, "bottom-right", "bottom-left", "top-right", "top-left", "center"].foldl
    (fun acc c => if c ∈ acc then acc else acc ++ [c]) []

/-- The candidate-trying loop of `pick_position`, followed by the
unconditional fallback to the primary anchor.  A `ValueError` raised by
`anchor_position` (unknown anchor) propagates as `none`. -/
def tryCandidates (primary : String) (pw ph ww wh margin ox oy : ℤ)
    (avoid : List Box) : List String → Option (ℤ × ℤ × String × Bool)
  | [] =>
    (anchor_position primary pw ph ww wh margin).map
      (fun c => (c.1 + ox, c.2 + oy, primary, false))
  | a :: rest =>
    match anchor_position a pw ph ww wh margin with
    | none => none
    | some c =>
      if fits_inside (c.1 + ox) (c.2 + oy) ww wh pw ph avoid then
        some (c.1 + ox, c.2 + oy, a, true)
      else tryCandidates primary pw ph ww wh margin ox oy avoid rest

/-- Source `pick_position`. -/
def pick_position (primary : String) (page_size wm_size : ℤ × ℤ)
    (margin ox oy : ℤ) (avoid : List Box) : Option (ℤ × ℤ × String × Bool) :=
  tryCandidates primary page_size.1 page_size.2 wm_size.1 wm_size.2
    margin ox oy avoid (orderedAnchors primary)

/-- Spec wording: two rectangles overlap iff they overlap on both axes,
touching edges not counting as overlap. -/
def specOverlap (a b : Box) : Bool :=
  match a, b with
  | (ax, ay, aw, ah), (bx, b_y, bw, bh) =>
    (decide (ax < bx + bw) && decide (bx < ax + aw)) &&
    (decide (ay < b_y + bh) && decide (b_y < ay + ah))

/-- Spec wording: a placement is feasible iff it lies fully within page
bounds and intersects no avoid box. -/
def specFeasible (x y w h page_w page_h : ℤ) (avoid : List Box) : Bool :=
  decide (0 ≤ x) && decide (0 ≤ y) &&
  decide (x + w ≤ page_w) && decide (y + h ≤ page_h) &&
  avoid.all (fun z => !specOverlap (x, y, w, h) z)

/-- Spec wording: requested anchor first, then the fixed fallback list with
duplicates of the requested anchor removed, preserving first occurrence. -/
def candidateOrderSpec (primary : String) : List String :=
  primary ::
    ([ "bottom-right", "bottom-left", "top-right", "top-left", "center"].filter
      (fun a => a ≠ primary))

/-- One spec-level candidate test: offset-adjusted coordinate of the
anchor if feasible. -/
def specStep (pw ph ww wh margin ox oy : ℤ) (avoid : List Box) (a : String) :
    Option (ℤ × ℤ × String × Bool) :=
  match anchor_position a pw ph ww wh margin with
  | none => none
  | some c =>
    if specFeasible (c.1 + ox) (c.2 + oy) ww wh pw ph avoid then
      some (c.1 + ox, c.2 + oy, a, true)
    else none

/-- Position selection written from the spec wording of claim C2: first
feasible candidate in order wins with flag `true`; otherwise the requested
anchor coordinate is returned unconditionally with flag `false`. -/
def pickPositionSpec (primary : String) (pw ph ww wh margin ox oy : ℤ)
    (avoid : List Box) : Option (ℤ × ℤ × String × Bool) :=
  match (candidateOrderSpec primary).findSome?
      (specStep pw ph ww wh margin ox oy avoid) with
  | some r => some r
  | none =>
    (anchor_position primary pw ph ww wh margin).map
      (fun c => (c.1 + ox, c.2 + oy, primary, false))

/-- An RGBA pixel (each channel 0..255). -/
abbrev Pixel := ℕ × ℕ × ℕ × ℕ

/-- A PIL image: pixel dimensions plus row-major pixel data.  (No length
invariant is enforced; the claims below concern dimensions, the alpha
channel transform, and the pipeline effects, never resampled content.) -/
structure Img where
  width : ℕ
  height : ℕ
  px : List Pixel
deriving DecidableEq

/-- Interface model of PIL resampling (`base.resize(..., Image.LANCZOS)`):
an image of the requested size whose content is sampled from the base.
No claim of the spec concerns the resampled pixel values, only the size. -/
def resamplePixels (base : Img) (tw th : ℕ) : List Pixel :=
  (List.range (tw * th)).map (fun i =>
    let x := i % tw
    let y := i / tw
    base.px.getD ((y * base.height / th) * base.width + x * base.width / tw)
      (0, 0, 0, 0))

/-- Source `resize_watermark`: clamp the scale to `[0.01, 1.0]`, take the
target width as `max(1, int(page_w * scale))`, and scale the height by
`target_w / base.width` (Python float division, exact here over `Rat`;
the model assumes `base.width > 0`, which holds for any decoded image;
Python would raise `ZeroDivisionError` at 0). -/
def resize_watermark (base : Img) (page_w page_h : ℕ) (scale : ℚ) : Img :=
  let scale2 := max (1 / 100) (min scale 1)
  let target_w : ℕ := max 1 (pyTrunc ((page_w : ℚ) * scale2)).toNat
  let ratio : ℚ := (target_w : ℚ) / (base.width : ℚ)
  let target_h : ℕ := max 1 (pyTrunc ((base.height : ℚ) * ratio)).toNat
  { width := target_w, height := target_h,
    px := resamplePixels base target_w target_h }

/-- Source `apply_opacity`: clamp opacity to `[0, 1]`; at `>= 0.999` return
the input itself; otherwise a copy whose alpha channel is mapped through
`int(a * opacity)`, RGB untouched. -/
def apply_opacity (watermark : Img) (opacity : ℚ) : Img :=
  let opacity2 := max 0 (min opacity 1)
  if (999 / 1000 : ℚ) ≤ opacity2 then watermark
  else
    { watermark with
      px := watermark.px.map (fun p =>
        (p.1, p.2.1, p.2.2.1, (pyTrunc ((p.2.2.2 : ℚ) * opacity2)).toNat)) }

/-- The scale clamp of the spec wording for claim C3. -/
def pyClampScale (scale : ℚ) : ℚ := max (1 / 100) (min scale 1)

/-- The opacity clamp of the spec wording for claim C4. -/
def pyClamp01 (q : ℚ) : ℚ := max 0 (min q 1)

/-- `page.convert("RGB")`: alpha discarded (kept as opaque 255 in the
4-tuple representation). -/
def convertRGB (im : Img) : Img :=
  { im with px := im.px.map (fun p => (p.1, p.2.1, p.2.2.1, 255)) }

/-- Integer alpha blend of one channel (interface model of PIL paste). -/
def blendChannel (dst src a : ℕ) : ℕ := (src * a + dst * (255 - a)) / 255

/-- Interface model of `canvas.paste(wm, pos, wm)`: alpha-blend the
watermark over the page at the given top-left coordinate.  No claim
concerns the blended pixel values. -/
def pasteModel (canvas wm : Img) (px0 py0 : ℤ) : Img :=
  { canvas with
    px := (List.range canvas.px.length).map (fun i =>
      let cx : ℤ := (i % canvas.width : ℕ)
      let cy : ℤ := (i / canvas.width : ℕ)
      let wx := cx - px0
      let wy := cy - py0
      let old := canvas.px.getD i (0, 0, 0, 0)
      if 0 ≤ wx ∧ wx < (wm.width : ℤ) ∧ 0 ≤ wy ∧ wy < (wm.height : ℤ) then
        let q := wm.px.getD (wy.toNat * wm.width + wx.toNat) (0, 0, 0, 0)
        (blendChannel old.1 q.1 q.2.2.2, blendChannel old.2.1 q.2.1 q.2.2.2,
         blendChannel old.2.2.1 q.2.2.1 q.2.2.2, 255)
      else old) }

/-- Python `int(x)` applied to a JSON value: numbers truncate, digit
strings parse (fractional numeric strings are not modelled), bools map to
0/1, anything else raises (`none`). -/
def pyIntOfJVal : JVal → Option ℤ
  | JVal.num q => some (pyTrunc q)
  | JVal.str s => s.toInt?
  | JVal.bool b => some (if b then 1 else 0)
  | _ => none

/-- Python `float(x)` applied to a JSON value (integer-literal strings
only; fractional literal strings are not modelled). -/
def pyFloatOfJVal : JVal → Option ℚ
  | JVal.num q => some q
  | JVal.str s => s.toInt?.map (fun n => (n : ℚ))
  | JVal.bool b => some (if b then 1 else 0)
  | _ => none

/-- The parse of a single avoid-zone entry as the claim words it: a
length-4 array whose four components all convert with `int()`. -/
def zoneParsed? (z : JVal) : Option Box :=
  match z with
  | JVal.list [a, b, c, d] =>
    match pyIntOfJVal a, pyIntOfJVal b, pyIntOfJVal c, pyIntOfJVal d with
    | some x, some y, some w0, some h0 => some (x, y, w0, h0)
    | _, _, _, _ => none
  | _ => none

/-- Whether an entry is an array of exactly four components
(Python: `isinstance(zone, (list, tuple)) and len(zone) == 4`). -/
def isArity4 (z : JVal) : Bool :=
  match z with
  | JVal.list l => decide (l.length = 4)
  | _ => false

/-- The avoid-zone loop of `compose_watermarked_image` over one list:
entries that are not length-4 arrays are skipped; length-4 entries have
all four components converted with `int()`, which raises (`Except.error`)
on a non-convertible component. -/
def parseAvoidList : List JVal → Except String (List Box)
  | [] => Except.ok []
  | zone :: rest =>
    if isArity4 zone then
      match zoneParsed? zone with
      | some b => (parseAvoidList rest).map (fun l => b :: l)
      | none => Except.error "invalid literal for int()"
    else parseAvoidList rest

/-- The whole avoid-zone extraction: a non-list `avoid` value yields no
zones (`isinstance(avoid_zones, list)` guard). -/
def parseAvoid : JVal → Except String (List Box)
  | JVal.list zones => parseAvoidList zones
  | _ => Except.ok []

/-- A pure path as its list of name components. -/
structure PathC where
  comps : List String
deriving DecidableEq

/-- `Path.name`: the last component (empty for the bare path). -/
def pathName (p : PathC) : String := p.comps.getLast?.getD ""

/-- `Path.parent` of a relative path, as used for `mkdir(parents=True)`. -/
def pathParent (p : PathC) : PathC := ⟨p.comps.dropLast⟩

/-- String form of a path (used only inside log lines). -/
def pathStr (p : PathC) : String := String.intercalate "/" p.comps

/-- Index of the last dot of a filename (`name.rfind(".")`). -/
def lastDotPos (s : String) : Option ℕ :=
  match s.data.reverse.findIdx? (fun c => c = '.') with
  | some j => some (s.data.length - 1 - j)
  | none => none

/-- `PurePath.suffix`: the extension of the last component, present only
when the last dot is strictly inside the name. -/
def pySuffix (name : String) : String :=
  match lastDotPos name with
  | some i =>
    if 0 < i ∧ i + 1 < name.data.length then String.mk (name.data.drop i) else ""
  | none => ""

/-- `PurePath.stem`: the last component without its extension. -/
def pyStem (name : String) : String :=
  match lastDotPos name with
  | some i =>
    if 0 < i ∧ i + 1 < name.data.length then String.mk (name.data.take i)
    else name
  | none => name

/-- Source `output_path_for`: the relative path of the page under the
input root (just the filename when `relative_to` raises), the suffix
inserted before the extension, and the extension chosen by the format. -/
def output_path_for (src input_root output_dir : PathC)
    (sfx fmt : String) : PathC :=
  let rel : List String :=
    if input_root.comps.isPrefixOf src.comps then
      src.comps.drop input_root.comps.length
    else [pathName src]
  let name := rel.getLast?.getD ""
  let stem := pyStem name ++ sfx
  let target_ext :=
    if fmt = "keep" then pySuffix name
    else if fmt = "png" then ".png" else ".jpg"
  ⟨output_dir.comps ++ rel.dropLast ++ [stem ++ target_ext]⟩

/-- The extension choice as the spec words it for claim C8. -/
def specExtFor (fmt srcName : String) : String :=
  if fmt = "keep" then pySuffix srcName
  else if fmt = "png" then ".png" else ".jpg"

/-- The run-configuration fields consumed by the modelled core
(`argparse.Namespace` as the core reads it). -/
structure Args where
  anchor : String
  offset_x : ℤ
  offset_y : ℤ
  margin : ℤ
  scale : ℚ
  opacity : ℚ
  quality : ℤ
  format : String
  sfx : String
  overwrite : Bool
  dry_run : Bool
  output : PathC
deriving DecidableEq

/-- Observable side effects of the pipeline: directory creation
(`mkdir(parents=True, exist_ok=True)`), a `canvas.save` call (with the
explicit format and, for JPEG, the quality), and a line sent to the
injected log sink. -/
inductive Eff where
  | mkdirp (p : PathC)
  | write (p : PathC) (fmt : Option String) (quality : Option ℤ)
  | log (s : String)
deriving DecidableEq

/-- The readable files on disk: paths mapped to their decoded images.
`Image.open` on a path not in this map raises. -/
def diskLookup (disk : List (PathC × Img)) (p : PathC) : Option Img :=
  (disk.find? (fun e => decide (e.1 = p))).map (fun e => e.2)

/-- A merged override field converted with `int(...)`, falling back to the
run default when the key is absent. -/
def pyIntField (v : Option JVal) (dflt : ℤ) : Except String ℤ :=
  match v with
  | none => Except.ok dflt
  | some j =>
    match pyIntOfJVal j with
    | some n => Except.ok n
    | none => Except.error "invalid literal for int()"

/-- A merged override field converted with `float(...)`, falling back to
the run default when the key is absent. -/
def pyFloatField (v : Option JVal) (dflt : ℚ) : Except String ℚ :=
  match v with
  | none => Except.ok dflt
  | some j =>
    match pyFloatOfJVal j with
    | some q => Except.ok q
    | none => Except.error "could not convert to float"

/-- One component of the merged `offset` value: `int(offset[idx])` when
the value is a list with enough elements, else the run default (this is
also the path taken when the key is absent, because the default value
`[args.offset_x, args.offset_y]` round-trips through `int` unchanged). -/
def pyOffsetComponent (v : Option JVal) (idx : ℕ) (dflt : ℤ) :
    Except String ℤ :=
  match v with
  | some (JVal.list l) =>
    match l.get? idx with
    | some j =>
      match pyIntOfJVal j with
      | some n => Except.ok n
      | none => Except.error "invalid literal for int()"
    | none => Except.ok dflt
  | some _ => Except.ok dflt
  | none => Except.ok dflt

/-- Source `compose_watermarked_image`: open and convert the page, resolve
overrides, build the transformed watermark, pick the position, paste, and
produce the placement summary string.  Any exception raised on the way
(unreadable image, non-convertible override field, unknown anchor)
propagates as `Except.error`. -/
def compose_watermarked_image (disk : List (PathC × Img)) (page_path : PathC)
    (watermark_base : Img) (args : Args) (overrides : PyDict) :
    Except String (Img × String) := do
  let page ← match diskLookup disk page_path with
    | some im => Except.ok im
    | none => Except.error ( "cannot identify image file " ++ pathName page_path)
  let page_rgb := convertRGB page
  let pw := page_rgb.width
  let ph := page_rgb.height
  let merged := merge_overrides (pathName page_path) overrides
  let anchorV := dictGet? merged "anchor"
  let offsetV := dictGet? merged "offset"
  let offset_x ← pyOffsetComponent offsetV 0 args.offset_x
  let offset_y ← pyOffsetComponent offsetV 1 args.offset_y
  let margin ← pyIntField (dictGet? merged "margin") args.margin
  let scale ← pyFloatField (dictGet? merged "scale") args.scale
  let opacity ← pyFloatField (dictGet? merged "opacity") args.opacity
  let avoid ← parseAvoid ((dictGet? merged "avoid").getD (JVal.list []))
  let wm_resized := resize_watermark watermark_base pw ph scale
  let wm_ready := apply_opacity wm_resized opacity
  let anchorS : String := match anchorV with
    | some (JVal.str s) => s
    | some _ => ""
    | none => args.anchor
  let r ← match pick_position anchorS ((pw : ℤ), (ph : ℤ))
      ((wm_ready.width : ℤ), (wm_ready.height : ℤ))
      margin offset_x offset_y avoid with
    | some r => Except.ok r
    | none => Except.error ( "Unknown anchor: " ++ anchorS)
  let canvas := pasteModel page_rgb wm_ready r.1 r.2.1
  let info := pathName page_path ++ ": anchor=" ++ r.2.2.1 ++ " pos=(" ++
    toString r.1 ++ "," ++ toString r.2.1 ++ ") size=(" ++
    toString wm_ready.width ++ " , " ++ toString wm_ready.height ++
    ") avoid_ok=" ++ pyBoolRepr r.2.2.2 ++ " avoid_zones=" ++
    toString avoid.length
  Except.ok (canvas, info)

/-- Source `process_file`: compose; on dry-run only log; otherwise create
the output root and the parent directories, apply the skip/overwrite
policy, and save.  An exception from compose propagates uncaught. -/
def process_file (disk : List (PathC × Img)) (existing : List PathC)
    (page_path : PathC) (watermark_base : Img) (args : Args)
    (overrides : PyDict) (input_root : PathC) : Except String (List Eff) :=
  match compose_watermarked_image disk page_path watermark_base args overrides with
  | Except.error e => Except.error e
  | Except.ok ci =>
    let info := ci.2
    if args.dry_run then Except.ok [Eff.log ( "[dry-run] " ++ info)]
    else
      let output_dir := args.output
      let out_path := output_path_for page_path input_root output_dir args.sfx args.format
      let dirEffs := [Eff.mkdirp output_dir, Eff.mkdirp (pathParent out_path)]
      if out_path ∈ existing ∧ args.overwrite = false then
        Except.ok (dirEffs ++ [Eff.log ( "[skip exists] " ++ pathName out_path)])
      else
        let extLower := (pySuffix (pathName out_path)).toLower
        let save : Eff :=
          if extLower = ".jpg" ∨ extLower = ".jpeg" then
            Eff.write out_path (some "JPEG") (some args.quality)
          else if extLower = ".png" then Eff.write out_path (some "PNG") none
          else Eff.write out_path none none
        Except.ok (dirEffs ++
          [save, Eff.log ( "[wrote] " ++ pathStr out_path ++ " :: " ++ info)])

/-- The per-page loop of source `run_with_args` (its final `for` loop):
`process_file` is called with no surrounding `try`, so an exception
raised for one page propagates and aborts the whole batch. -/
def runPages (disk : List (PathC × Img)) (existing : List PathC)
    (watermark_base : Img) (args : Args) (overrides : PyDict)
    (input_root : PathC) : List PathC → Except String (List Eff)
  | [] => Except.ok []
  | p :: rest =>
    match process_file disk existing p watermark_base args overrides input_root with
    | Except.error e => Except.error e
    | Except.ok effs =>
      match runPages disk existing watermark_base args overrides input_root rest with
      | Except.error e => Except.error e
      | Except.ok more => Except.ok (effs ++ more)

/-- The per-page loop of the GUI batch worker (`app/gui.py`): each
`process_file` call is wrapped in `try/except`; on success the status
label shows the page name, on failure it shows the page name and the
error, and the loop continues with the next page.  The worker passes a
no-op log sink to `process_file`, so the `Eff.log` entries inside a
successful segment denote calls to that discarded sink. -/
def guiWorkerLoop (disk : List (PathC × Img)) (existing : List PathC)
    (watermark_base : Img) (argsFor : PathC → Args) (overrides : PyDict)
    (input_root : PathC) : List PathC → List Eff
  | [] => []
  | p :: rest =>
    (match process_file disk existing p watermark_base (argsFor p) overrides input_root with
     | Except.ok effs => effs ++ [Eff.log ( "Processing: " ++ pathName p)]
     | Except.error e => [Eff.log ( "Error on " ++ pathName p ++ ": " ++ e)]) ++
    guiWorkerLoop disk existing watermark_base argsFor overrides input_root rest

/-- A small 4x2 opaque watermark used as a concrete test fixture. -/
def wmFix : Img := ⟨4, 2, List.replicate 8 (0, 0, 0, 255)⟩

/-- A 10x10 page image used as a concrete test fixture. -/
def pageFix : Img := ⟨10, 10, List.replicate 100 (200, 200, 200, 255)⟩

/-- A page path that is present on the fixture disk. -/
def goodPage : PathC := ⟨[ "in", "p2.jpg"]⟩

/-- A matched page path that is NOT readable (decode failure). -/
def badPage : PathC := ⟨[ "in", "p1.jpg"]⟩

/-- The input root of the fixtures. -/
def rootFix : PathC := ⟨[ "in"]⟩

/-- The fixture disk: only `goodPage` decodes. -/
def diskFix : List (PathC × Img) := [(goodPage, pageFix)]

/-- Default run configuration for the fixtures. -/
def argsFix : Args :=
  { anchor := "bottom-right", offset_x := 0, offset_y := 0, margin := 1,
    scale := 1 / 4, opacity := 1, quality := 92, format := "jpeg",
    sfx := "", overwrite := false, dry_run := false, output := ⟨[ "out"]⟩ }

/-- The fixture configuration with dry-run enabled. -/
def argsDryFix : Args := { argsFix with dry_run := true }

/-- The override table of the claim C6 example. -/
def ovC6 : PyDict :=
  [( "*", JVal.obj [( "margin", JVal.num 10)]),
   ( "Page01.jpg", JVal.obj [( "margin", JVal.num 20)])]

/-- A 1x1 watermark with a fully opaque pixel, for the opacity claim. -/
def wmOpaque1 : Img := ⟨1, 1, [(10, 20, 30, 255)]⟩

/-- A 100x50 base watermark for the resize claim (pixel data irrelevant). -/
def wmBase100 : Img := ⟨100, 50, []⟩

/-- An avoid list mixing one malformed length-4 entry (non-numeric first
component) with one valid box. -/
def avoidMixed : JVal :=
  JVal.list
    [JVal.list [JVal.str "a", JVal.num 1, JVal.num 2, JVal.num 3],
     JVal.list [JVal.num 0, JVal.num 0, JVal.num 5, JVal.num 5]]

/-- Overrides that attach `avoidMixed` to every page. -/
def ovBadAvoid : PyDict := [( "*", JVal.obj [( "avoid", avoidMixed)])]

/-- The effect trace a dry run is expected to produce: one dry-run log
line per page, carrying that page's placement summary. -/
def dryRunTrace (disk : List (PathC × Img)) (wm : Img) (args : Args)
    (ov : PyDict) (pages : List PathC) : List Eff :=
  pages.filterMap (fun p =>
    (compose_watermarked_image disk p wm args ov).toOption.map
      (fun ci => Eff.log ( "[dry-run] " ++ ci.2)))

/-- Claim C7: for every anchor in the five recognized names, the base
(unoffset) coordinate places the watermark `margin` pixels from the
relevant page edges, `center` ignores the margin and centers both axes,
any unrecognized anchor value is an error, and for `bottom-right` with
margin 16 on a 1000x1400 page and a 200x100 watermark the base coordinate
is (784, 1284). -/
theorem C7_anchor_base_coords :
    (∀ pw ph ww wh m : ℤ,
        anchor_position "top-left" pw ph ww wh m = some (m, m)
      ∧ anchor_position "top-right" pw ph ww wh m = some (pw - ww - m, m)
      ∧ anchor_position "bottom-left" pw ph ww wh m = some (m, ph - wh - m)
      ∧ anchor_position "bottom-right" pw ph ww wh m
          = some (pw - ww - m, ph - wh - m)
      ∧ anchor_position "center" pw ph ww wh m
          = some (Int.fdiv (pw - ww) 2, Int.fdiv (ph - wh) 2)
      ∧ (∀ m2, anchor_position "center" pw ph ww wh m
          = anchor_position "center" pw ph ww wh m2))
    ∧ (∀ (a : String) (pw ph ww wh m : ℤ), a ∉ validAnchors →
        anchor_position a pw ph ww wh m = none)
    ∧ anchor_position "bottom-right" 1000 1400 200 100 16 = some (784, 1284) := by
  refine ⟨fun pw ph ww wh m => ⟨rfl, rfl, rfl, rfl, rfl, fun m2 => rfl⟩,
    fun a pw ph ww wh m h => ?_, by decide⟩
  simp only [validAnchors, List.mem_cons, List.not_mem_nil, or_false, not_or] at h
  obtain ⟨h1, h2, h3, h4, h5⟩ := h
  simp [anchor_position, h1, h2, h3, h4, h5]

/-- Witness for C7 at a concrete unrecognized anchor. -/
theorem C7_witness : anchor_position "middle" 100 100 10 10 5 = none :=
  C7_anchor_base_coords.2.1 "middle" 100 100 10 10 5 (by decide)

/-- Counterexample for claim C3: on a 999-pixel-wide page with scale 0.25
(both exact binary floats), the source truncates `999 * 0.25 = 249.75` to
width 249, while the claimed formula `round(pageWidth * clamp(scale))`
gives 250. -/
theorem C3_counterexample :
    (resize_watermark wmBase100 999 1400 (1 / 4)).width = 249
    ∧ round ((999 : ℚ) * pyClampScale (1 / 4)) = 250
    ∧ (249 : ℕ) ≠ (250 : ℤ).toNat := by
  refine ⟨by with_unfolding_all rfl, ?_, by decide⟩
  norm_num [pyClampScale, round_eq]

/-- Claim C3 as amended: output width is `max 1 (trunc(pageWidth *
clamp(scale, 0.01, 1.0)))` (truncation, not rounding), it is at least 1,
page height never constrains the output, and the height preserves the
base aspect ratio within rounding (`max 1 (trunc(baseHeight * targetWidth
/ baseWidth))`, within 1 of the exact value). -/
theorem C3_resize_dimensions (base : Img) (pw ph : ℕ) (scale : ℚ)
    (hbw : 0 < base.width) (hbh : 0 < base.height) :
    (resize_watermark base pw ph scale).width
        = max 1 (pyTrunc ((pw : ℚ) * pyClampScale scale)).toNat
    ∧ 1 ≤ (resize_watermark base pw ph scale).width
    ∧ (∀ ph2, resize_watermark base pw ph2 scale = resize_watermark base pw ph scale)
    ∧ (resize_watermark base pw ph scale).height
        = max 1 (pyTrunc ((base.height : ℚ) *
            (((resize_watermark base pw ph scale).width : ℚ) / (base.width : ℚ)))).toNat
    ∧ |((resize_watermark base pw ph scale).height : ℚ)
        - (base.height : ℚ) * ((resize_watermark base pw ph scale).width : ℚ)
            / (base.width : ℚ)| < 1 := by
  refine ⟨rfl, le_max_left 1 _, fun ph2 => rfl, by with_unfolding_all rfl, ?_⟩
  have key : ∀ tw : ℕ, 1 ≤ tw →
      |((max 1 (pyTrunc ((base.height : ℚ) * ((tw : ℚ) / (base.width : ℚ)))).toNat : ℕ) : ℚ)
        - (base.height : ℚ) * (tw : ℚ) / (base.width : ℚ)| < 1 := by
    intro tw htw1
    rw [mul_div_assoc]
    have hvpos : 0 < (base.height : ℚ) * ((tw : ℚ) / (base.width : ℚ)) := by
      apply mul_pos
      · exact_mod_cast hbh
      · apply div_pos
        · exact_mod_cast htw1
        · exact_mod_cast hbw
    generalize hveq : (base.height : ℚ) * ((tw : ℚ) / (base.width : ℚ)) = v at hvpos ⊢
    have htrunc : pyTrunc v = ⌊v⌋ := if_pos hvpos.le
    have hfl0 : 0 ≤ ⌊v⌋ := Int.floor_nonneg.mpr hvpos.le
    rw [htrunc]
    rcases le_or_lt 1 ⌊v⌋ with h1 | h1
    · rw [max_eq_right (by omega)]
      have hcast : ((⌊v⌋.toNat : ℕ) : ℚ) = ((⌊v⌋ : ℤ) : ℚ) := by
        have h := Int.toNat_of_nonneg hfl0
        exact_mod_cast congrArg (fun n : ℤ => (n : ℚ)) h
      rw [abs_lt, hcast]
      constructor
      · linarith [Int.lt_floor_add_one v]
      · linarith [Int.floor_le v]
    · have h0 : ⌊v⌋ = 0 := by omega
      rw [h0, show max 1 ((0 : ℤ).toNat) = 1 from rfl]
      have hvlt : v < 1 := by
        have := Int.lt_floor_add_one v
        rw [h0] at this
        simpa using this
      rw [abs_lt]
      constructor <;> push_cast <;> linarith
  have hh : (resize_watermark base pw ph scale).height
      = max 1 (pyTrunc ((base.height : ℚ) *
          (((resize_watermark base pw ph scale).width : ℚ) / (base.width : ℚ)))).toNat := by
    with_unfolding_all rfl
  rw [hh]
  exact key (resize_watermark base pw ph scale).width (le_max_left 1 _)

/-- Witness for C3 at a concrete input. -/
theorem C3_witness :
    (resize_watermark wmBase100 999 1400 (1 / 4)).width
      = max 1 (pyTrunc ((999 : ℚ) * pyClampScale (1 / 4))).toNat :=
  (C3_resize_dimensions wmBase100 999 1400 (1 / 4) (by decide) (by decide)).1

/-- Counterexample for claim C4: at opacity 0.5 (exact binary float), the
source truncates `255 * 0.5 = 127.5` to alpha 127, while the claimed
formula `round(original_alpha * opacity)` gives 128. -/
theorem C4_counterexample :
    (apply_opacity wmOpaque1 (1 / 2)).px = [(10, 20, 30, 127)]
    ∧ (apply_opacity wmOpaque1 (1 / 2)).px
        ≠ wmOpaque1.px.map (fun p =>
            (p.1, p.2.1, p.2.2.1, (round ((p.2.2.2 : ℚ) * (1 / 2))).toNat)) := by
  constructor
  · with_unfolding_all rfl
  · with_unfolding_all decide

/-- Claim C4 as amended: `applyOpacity` clamps the opacity to `[0, 1]`;
with clamped opacity at least 0.999 it returns the input unchanged; with
any smaller opacity it returns an image of the same size whose RGB
channels are preserved and whose alpha values equal
`trunc(original_alpha * opacity)` (truncation, not rounding).  The model
is pure, so the input is never mutated. -/
theorem C4_apply_opacity (w : Img) (o : ℚ) :
    apply_opacity w o = apply_opacity w (pyClamp01 o)
    ∧ ((999 / 1000 : ℚ) ≤ pyClamp01 o → apply_opacity w o = w)
    ∧ (pyClamp01 o < 999 / 1000 →
        (apply_opacity w o).width = w.width
        ∧ (apply_opacity w o).height = w.height
        ∧ (apply_opacity w o).px = w.px.map (fun p =>
            (p.1, p.2.1, p.2.2.1, (pyTrunc ((p.2.2.2 : ℚ) * pyClamp01 o)).toNat))) := by
  have hid : max 0 (min (max 0 (min o 1)) 1) = max 0 (min o 1) := by
    rcases le_total o 0 with h | h <;> rcases le_total o 1 with h1 | h1 <;>
      simp [max_def, min_def] <;> split_ifs <;> linarith
  refine ⟨?_, ?_, ?_⟩
  · unfold apply_opacity pyClamp01
    rw [hid]
  · intro h
    unfold apply_opacity
    rw [if_pos]
    exact h
  · intro h
    unfold apply_opacity
    rw [if_neg]
    · exact ⟨rfl, rfl, rfl⟩
    · exact not_le.mpr h

/-- Witness for C4 at a concrete input. -/
theorem C4_witness : apply_opacity wmOpaque1 2 = wmOpaque1 :=
  (C4_apply_opacity wmOpaque1 2).2.1 (by norm_num [pyClamp01])

/-- Lookup after a single `dict.update` entry step. -/
theorem dictGet?_dictSet (m : PyDict) (k k' : String) (v : JVal) :
    dictGet? (dictSet m k v) k' = if k = k' then some v else dictGet? m k' := by
  induction m with
  | nil => simp [dictSet, dictGet?]
  | cons hd tl ih =>
    obtain ⟨k0, v0⟩ := hd
    by_cases h : k0 = k
    · subst h
      by_cases h2 : k0 = k' <;> simp [dictSet, dictGet?, h2]
    · by_cases h2 : k0 = k'
      · subst h2
        have hkk : ¬k = k0 := fun hh => h hh.symm
        simp [dictSet, dictGet?, h, hkk]
      · simp [dictSet, dictGet?, h, h2, ih]

/-- Lookup after a whole `dict.update`: entries of the update argument win
(its last occurrence, which is its only one for real dicts). -/
theorem dictGet?_dictUpdate (m d : PyDict) (k : String) :
    dictGet? (dictUpdate m d) k = optOr (dictGetLast? d k) (dictGet? m k) := by
  induction d generalizing m with
  | nil => simp [dictUpdate, dictGetLast?, optOr]
  | cons hd tl ih =>
    obtain ⟨k0, v0⟩ := hd
    simp only [dictUpdate, List.foldl_cons] at ih ⊢
    rw [ih, dictGet?_dictSet]
    cases h : dictGetLast? tl k with
    | some v => simp [dictGetLast?, h, optOr]
    | none =>
      by_cases hk : k0 = k
      · simp [dictGetLast?, h, optOr, hk]
      · simp [dictGetLast?, h, optOr, hk]

/-- A key absent from a dict has no last entry. -/
theorem dictGetLast?_eq_none (d : PyDict) (k : String) (h : k ∉ dictKeys d) :
    dictGetLast? d k = none := by
  induction d with
  | nil => rfl
  | cons hd tl ih =>
    obtain ⟨k0, v0⟩ := hd
    simp only [dictKeys, List.map_cons, List.mem_cons, not_or] at h
    have hne : ¬k0 = k := fun hh => h.1 hh.symm
    have htl : k ∉ dictKeys tl := h.2
    simp [dictGetLast?, ih htl, hne]

/-- On a dict with unique keys, last-entry lookup is first-entry lookup. -/
theorem dictGetLast?_eq_dictGet? (d : PyDict) (k : String)
    (h : (dictKeys d).Nodup) : dictGetLast? d k = dictGet? d k := by
  induction d with
  | nil => rfl
  | cons hd tl ih =>
    obtain ⟨k0, v0⟩ := hd
    simp only [dictKeys, List.map_cons, List.nodup_cons] at h
    obtain ⟨hnotin, hnd⟩ := h
    by_cases hk : k0 = k
    · subst hk
      have : dictGetLast? tl k0 = none :=
        dictGetLast?_eq_none tl k0 (by simpa [dictKeys] using hnotin)
      simp [dictGetLast?, dictGet?, this]
    · cases hcase : dictGetLast? tl k with
      | some v => simp [dictGetLast?, dictGet?, hk, hcase, ih hnd ▸ hcase]
      | none =>
        have := ih hnd
        rw [hcase] at this
        simp [dictGetLast?, dictGet?, hk, hcase, this.symm]

/-- The fold of `merge_overrides` over any key list equals the fold of
`dictUpdate` over the candidate dicts extracted from those keys. -/
theorem foldl_merge_eq (ov : PyDict) (keys : List String) (init : PyDict) :
    keys.foldl (fun merged key =>
        match asObjDict (dictGet? ov key) with
        | some o => dictUpdate merged o
        | none => merged) init
      = (keys.filterMap (fun k => asObjDict (dictGet? ov k))).foldl dictUpdate init := by
  induction keys generalizing init with
  | nil => rfl
  | cons k ks ih =>
    cases h : asObjDict (dictGet? ov k) with
    | some o => simp [List.foldl_cons, List.filterMap_cons, h, ih]
    | none => simp [List.foldl_cons, List.filterMap_cons, h, ih]

/-- `findSome?` over an appended list. -/
theorem findSome?_append_jv {α β : Type} (l1 l2 : List α) (f : α → Option β) :
    (l1 ++ l2).findSome? f
      = match l1.findSome? f with
        | some b => some b
        | none => l2.findSome? f := by
  induction l1 with
  | nil => simp [List.findSome?]
  | cons a l ih =>
    cases h : f a with
    | some b => simp [List.findSome?, h]
    | none => simp [List.findSome?, h, ih]

/-- Lookup through a left fold of `dictUpdate` steps: the last candidate
dict holding the field wins; otherwise the initial accumulator decides. -/
theorem dictGet?_foldl_dictUpdate (ds : List PyDict) (init : PyDict) (k : String) :
    dictGet? (ds.foldl dictUpdate init) k
      = optOr (ds.reverse.findSome? (fun d => dictGetLast? d k)) (dictGet? init k) := by
  induction ds generalizing init with
  | nil => simp [optOr, List.findSome?]
  | cons d ds ih =>
    simp only [List.foldl_cons, List.reverse_cons]
    rw [ih, dictGet?_dictUpdate, findSome?_append_jv]
    cases h1 : ds.reverse.findSome? (fun d => dictGetLast? d k) with
    | some v => simp [optOr]
    | none =>
      cases h2 : dictGetLast? d k with
      | some v => simp [optOr, List.findSome?, h2]
      | none => simp [optOr, List.findSome?, h2]

/-- `findSome?` respects pointwise-equal functions. -/
theorem findSome?_congr_jv {α β : Type} (l : List α) (f g : α → Option β)
    (h : ∀ x ∈ l, f x = g x) : l.findSome? f = l.findSome? g := by
  induction l with
  | nil => rfl
  | cons a l ih =>
    have ha := h a (List.mem_cons_self a l)
    have hl := fun x hx => h x (List.mem_cons_of_mem a hx)
    cases hfa : f a with
    | some b => simp [List.findSome?, hfa, ha ▸ hfa, ih hl, ← ha]
    | none => simp [List.findSome?, hfa, ← ha, ih hl]

/-- Claim C6: override resolution tries exactly the keys `"*"`, the exact
filename and the lower-cased filename in that order, merging present
mapping values field-by-field with later keys winning; non-mapping values
are ignored; the result is empty when no key matches; and in the concrete
example the specific entry overrides the global one (margin 20). -/
theorem C6_override_resolution (name field : String) (ov : PyDict)
    (hnd : ∀ d ∈ candidateDicts name ov, (dictKeys d).Nodup) :
    dictGet? (merge_overrides name ov) field
      = (candidateDicts name ov).reverse.findSome? (fun d => dictGet? d field)
    ∧ (candidateDicts name ov = [] → merge_overrides name ov = [])
    ∧ dictGet? (merge_overrides "Page01.jpg" ovC6) "margin" = some (JVal.num 20) := by
  refine ⟨?_, ?_, by with_unfolding_all rfl⟩
  · show dictGet? ([ "*", name, name.toLower].foldl _ []) field = _
    rw [foldl_merge_eq, dictGet?_foldl_dictUpdate]
    have hempty : dictGet? ([] : PyDict) field = none := rfl
    rw [hempty]
    have hor : ∀ a : Option JVal, optOr a none = a := by
      intro a
      cases a <;> rfl
    rw [hor]
    exact findSome?_congr_jv _ _ _ (fun d hd =>
      dictGetLast?_eq_dictGet? d field (hnd d (List.mem_reverse.mp hd)))
  · intro h
    show ([ "*", name, name.toLower].foldl _ []) = []
    rw [foldl_merge_eq]
    have : ([ "*", name, name.toLower].filterMap
        (fun k => asObjDict (dictGet? ov k))) = candidateDicts name ov := rfl
    rw [this, h]
    rfl

/-- Witness for C6 at the concrete example. -/
theorem C6_witness :
    dictGet? (merge_overrides "Page01.jpg" ovC6) "margin"
      = (candidateDicts "Page01.jpg" ovC6).reverse.findSome?
          (fun d => dictGet? d "margin") := by
  refine (C6_override_resolution "Page01.jpg" "margin" ovC6 ?_).1
  intro d hd
  have hc : candidateDicts "Page01.jpg" ovC6
      = [[( "margin", JVal.num 10)], [( "margin", JVal.num 20)]] := by
    with_unfolding_all rfl
  rw [hc] at hd
  simp only [List.mem_cons, List.not_mem_nil, or_false] at hd
  rcases hd with rfl | rfl <;> simp [dictKeys]

/-- An entry that is not a length-4 array never parses as a box. -/
theorem zoneParsed?_eq_none_of_not_arity4 (z : JVal) (h : isArity4 z = false) :
    zoneParsed? z = none := by
  cases z with
  | list l =>
    simp only [isArity4, decide_eq_false_iff_not] at h
    rcases l with _ | ⟨a, _ | ⟨b, _ | ⟨c, _ | ⟨d, _ | ⟨e, l⟩⟩⟩⟩⟩ <;>
      simp [zoneParsed?] at h ⊢
  | num q => rfl
  | str s => rfl
  | bool b => rfl
  | obj o => rfl
  | null => rfl

/-- Counterexample for claim C5: a length-4 avoid entry with a
non-numeric component is not silently dropped — `int()` raises, the
exception aborts processing of the page, and the valid box in the same
list is never used.  The claim predicts the mixed list to yield exactly
the one valid box. -/
theorem C5_counterexample :
    compose_watermarked_image diskFix goodPage wmFix argsFix ovBadAvoid
      = Except.error "invalid literal for int()"
    ∧ parseAvoid avoidMixed
        ≠ Except.ok [((0 : ℤ), (0 : ℤ), (5 : ℤ), (5 : ℤ))] := by
  constructor
  · with_unfolding_all rfl
  · have h : parseAvoid avoidMixed = Except.error "invalid literal for int()" := by
      with_unfolding_all rfl
    rw [h]
    intro hcontra
    exact Except.noConfusion hcontra

/-- Claim C5 as amended: avoid entries that are not length-4 arrays are
silently dropped while the remaining valid boxes in the same list are
kept, in order; but a length-4 entry with a component that `int()` cannot
convert raises an exception (aborting the processing of that page) rather
than being dropped. -/
theorem C5_avoid_parsing :
    (∀ zones : List JVal,
        (∀ z ∈ zones, isArity4 z = true → (zoneParsed? z).isSome = true) →
        parseAvoid (JVal.list zones) = Except.ok (zones.filterMap zoneParsed?))
    ∧ (∀ (zones : List JVal) (z : JVal), z ∈ zones → isArity4 z = true →
        zoneParsed? z = none →
        ∃ msg, parseAvoid (JVal.list zones) = Except.error msg) := by
  constructor
  · intro zones h
    show parseAvoidList zones = _
    induction zones with
    | nil => rfl
    | cons z zs ih =>
      have hz := h z (List.mem_cons_self z zs)
      have hzs := ih (fun x hx => h x (List.mem_cons_of_mem z hx))
      cases ha : isArity4 z with
      | true =>
        obtain ⟨b, hb⟩ := Option.isSome_iff_exists.mp (hz ha)
        simp [parseAvoidList, ha, hb, List.filterMap_cons, hzs, Except.map]
      | false =>
        have hnone := zoneParsed?_eq_none_of_not_arity4 z ha
        simp [parseAvoidList, ha, hnone, List.filterMap_cons, hzs]
  · intro zones z hmem ha hnone
    show ∃ msg, parseAvoidList zones = Except.error msg
    induction zones with
    | nil => cases hmem
    | cons z0 zs ih =>
      rcases List.mem_cons.mp hmem with rfl | hmem2
      · exact ⟨ "invalid literal for int()", by simp [parseAvoidList, ha, hnone]⟩
      · obtain ⟨msg, hmsg⟩ := ih hmem2
        cases ha0 : isArity4 z0 with
        | true =>
          cases hp0 : zoneParsed? z0 with
          | some b =>
            exact ⟨msg, by simp [parseAvoidList, ha0, hp0, hmsg, Except.map]⟩
          | none =>
            exact ⟨ "invalid literal for int()", by simp [parseAvoidList, ha0, hp0]⟩
        | false => exact ⟨msg, by simp [parseAvoidList, ha0, hmsg]⟩

/-- Witness for C5 on a list mixing a skipped wrong-arity entry with a
valid box. -/
theorem C5_witness :
    parseAvoid (JVal.list [JVal.str "x",
        JVal.list [JVal.num 1, JVal.num 2, JVal.num 3, JVal.num 4]])
      = Except.ok [((1 : ℤ), (2 : ℤ), (3 : ℤ), (4 : ℤ))] := by
  have h := C5_avoid_parsing.1
    [JVal.str "x", JVal.list [JVal.num 1, JVal.num 2, JVal.num 3, JVal.num 4]]
    (by
      intro z hz
      simp only [List.mem_cons, List.not_mem_nil, or_false] at hz
      rcases hz with rfl | rfl
      · intro hcontra
        cases hcontra
      · intro _
        with_unfolding_all rfl)
  exact h.trans (by with_unfolding_all rfl)

/-- The source intersection test agrees with the spec wording
(overlap on both axes, touching edges excluded). -/
theorem boxes_intersect_eq_specOverlap (a b : Box) :
    boxes_intersect a b = specOverlap a b := by
  obtain ⟨ax, ay, aw, ah⟩ := a
  obtain ⟨bx, b_y, bw, bh⟩ := b
  simp only [boxes_intersect, specOverlap]
  rw [Bool.eq_iff_iff]
  simp only [Bool.not_eq_true', Bool.or_eq_false_iff, decide_eq_false_iff_not,
    Bool.and_eq_true, decide_eq_true_eq]
  omega

/-- The source feasibility test agrees with the spec wording. -/
theorem fits_inside_eq_specFeasible (x y w h pw ph : ℤ) (avoid : List Box) :
    fits_inside x y w h pw ph avoid = specFeasible x y w h pw ph avoid := by
  have hall : (fun z => !boxes_intersect (x, y, w, h) z)
      = (fun z => !specOverlap (x, y, w, h) z) := by
    funext z
    rw [boxes_intersect_eq_specOverlap]
  simp only [fits_inside, specFeasible, hall]
  split
  · rename_i hc
    rcases hc with h1 | h1 | h1 | h1
    · simp [decide_eq_false (not_le.mpr h1)]
    · simp [decide_eq_false (not_le.mpr h1)]
    · simp [decide_eq_false (not_le.mpr h1)]
    · simp [decide_eq_false (not_le.mpr h1)]
  · rename_i hc
    push_neg at hc
    obtain ⟨h1, h2, h3, h4⟩ := hc
    simp [h1, h2, h3, h4]

/-- Every recognized anchor has a base coordinate. -/
theorem anchor_position_isSome_of_valid (a : String) (h : a ∈ validAnchors)
    (pw ph ww wh m : ℤ) : (anchor_position a pw ph ww wh m).isSome = true := by
  fin_cases h <;> rfl

/-- The candidate loop of the source equals the spec-level first-feasible
search over the same candidate list, provided every candidate anchor is
recognized. -/
theorem tryCandidates_eq_spec (primary : String) (pw ph ww wh margin ox oy : ℤ)
    (avoid : List Box) (cands : List String)
    (hc : ∀ a ∈ cands, (anchor_position a pw ph ww wh margin).isSome = true) :
    tryCandidates primary pw ph ww wh margin ox oy avoid cands
      = match cands.findSome? (specStep pw ph ww wh margin ox oy avoid) with
        | some r => some r
        | none => (anchor_position primary pw ph ww wh margin).map
            (fun c => (c.1 + ox, c.2 + oy, primary, false)) := by
  induction cands with
  | nil => rfl
  | cons a rest ih =>
    have ha := hc a (List.mem_cons_self a rest)
    obtain ⟨c, hcval⟩ := Option.isSome_iff_exists.mp ha
    have hrest := ih (fun x hx => hc x (List.mem_cons_of_mem a hx))
    simp only [tryCandidates, List.findSome?, hcval, specStep,
      fits_inside_eq_specFeasible]
    by_cases hf : specFeasible (c.1 + ox) (c.2 + oy) ww wh pw ph avoid = true
    · simp [hf]
    · have hf2 : specFeasible (c.1 + ox) (c.2 + oy) ww wh pw ph avoid = false :=
        Bool.not_eq_true _ ▸ (Bool.eq_false_iff.mpr (fun hh => hf hh))
      simp [hf2, hrest]

/-- Claim C2: the source position selection equals the spec-level
procedure — candidates in the order requested anchor first then
bottom-right, bottom-left, top-right, top-left, center with duplicates of
the requested anchor removed; feasibility is fully-inside-page plus
no-avoid-box-overlap (both-axes overlap, touching edges excluded); the
first feasible candidate wins with `obeysAvoidZones = true`; otherwise
the requested anchor coordinate is returned with `false`.  The requested
anchor must be one of the recognized five (anything else raises,
see claim C7). -/
theorem C2_pick_position (primary : String) (pw ph ww wh margin ox oy : ℤ)
    (avoid : List Box) (h : primary ∈ validAnchors) :
    pick_position primary (pw, ph) (ww, wh) margin ox oy avoid
      = pickPositionSpec primary pw ph ww wh margin ox oy avoid := by
  have horder : orderedAnchors primary = candidateOrderSpec primary := by
    fin_cases h <;> rfl
  have hvalid : ∀ a ∈ candidateOrderSpec primary, a ∈ validAnchors := by
    fin_cases h <;> decide
  show tryCandidates primary pw ph ww wh margin ox oy avoid (orderedAnchors primary) = _
  rw [horder, pickPositionSpec]
  exact tryCandidates_eq_spec primary pw ph ww wh margin ox oy avoid
    (candidateOrderSpec primary)
    (fun a ha => anchor_position_isSome_of_valid a (hvalid a ha) pw ph ww wh margin)

/-- Witness for C2 at a concrete input. -/
theorem C2_witness :
    pick_position "bottom-right" (10, 10) (2, 1) 1 0 0 []
      = pickPositionSpec "bottom-right" 10 10 2 1 1 0 0 [] :=
  C2_pick_position "bottom-right" 10 10 2 1 1 0 0 [] (by decide)

/-- Counterexample for claim C1: in the batch loop of `run_with_args`
(no `try/except` around `process_file`), an unreadable first page aborts
the whole batch with the raised exception, even though the second matched
page would process fine on its own — the failure is neither caught nor
logged, and the pipeline does not proceed to the next page. -/
theorem C1_counterexample :
    runPages diskFix [] wmFix argsFix [] rootFix [badPage, goodPage]
      = Except.error "cannot identify image file p1.jpg"
    ∧ (∃ effs, process_file diskFix [] goodPage wmFix argsFix [] rootFix
        = Except.ok effs) := by
  constructor
  · with_unfolding_all rfl
  · exact ⟨_, by with_unfolding_all rfl⟩

/-- Claim C1 as amended: in the CLI batch loop (`run_with_args`) a
per-file exception propagates uncaught and aborts the whole batch; only
the GUI batch worker (`app/gui.py`) wraps each `process_file` call in
`try/except`, surfaces the offending filename with the error in the
status line, and proceeds to the next page. -/
theorem C1_error_isolation (disk : List (PathC × Img)) (existing : List PathC)
    (wm : Img) (ov : PyDict) (root p : PathC) (rest : List PathC)
    (argsFor : PathC → Args) (args : Args) (e : String) :
    (process_file disk existing p wm args ov root = Except.error e →
      runPages disk existing wm args ov root (p :: rest) = Except.error e)
    ∧ (process_file disk existing p wm (argsFor p) ov root = Except.error e →
      guiWorkerLoop disk existing wm argsFor ov root (p :: rest)
        = Eff.log ( "Error on " ++ pathName p ++ ": " ++ e)
          :: guiWorkerLoop disk existing wm argsFor ov root rest) := by
  constructor
  · intro h
    simp [runPages, h]
  · intro h
    simp [guiWorkerLoop, h]

/-- Witness for C1 at the concrete failing page. -/
theorem C1_witness :
    runPages diskFix [] wmFix argsFix [] rootFix [badPage]
      = Except.error "cannot identify image file p1.jpg" :=
  (C1_error_isolation diskFix [] wmFix [] rootFix badPage []
      (fun _ => argsFix) argsFix "cannot identify image file p1.jpg").1
    (by with_unfolding_all rfl)

/-- On a dry run, a page that composes successfully produces exactly one
dry-run log line and nothing else. -/
theorem process_file_dry (disk : List (PathC × Img)) (existing : List PathC)
    (p : PathC) (wm : Img) (args : Args) (ov : PyDict) (root : PathC)
    (ci : Img × String) (hdry : args.dry_run = true)
    (hci : compose_watermarked_image disk p wm args ov = Except.ok ci) :
    process_file disk existing p wm args ov root
      = Except.ok [Eff.log ( "[dry-run] " ++ ci.2)] := by
  unfold process_file
  rw [hci]
  simp [hdry]

/-- Counterexample for claim C9: a dry run over one matched page that
fails to decode logs no dry-run line at all for it (the batch aborts, as
in C1), against the claimed exactly-one-line-per-matched-page. -/
theorem C9_counterexample :
    argsDryFix.dry_run = true
    ∧ runPages diskFix [] wmFix argsDryFix [] rootFix [badPage]
      = Except.error "cannot identify image file p1.jpg" := by
  constructor
  · rfl
  · with_unfolding_all rfl

/-- Claim C9 as amended: on a dry run, for every page that composes
successfully the whole computation is still performed and its result is
reported, but the trace contains no directory creation and no write —
only one dry-run log line per page, carrying that page's placement
summary; a page that raises aborts the batch with no line (claim C1). -/
theorem C9_dry_run (disk : List (PathC × Img)) (existing : List PathC)
    (wm : Img) (args : Args) (ov : PyDict) (root : PathC) (pages : List PathC)
    (hdry : args.dry_run = true)
    (hok : ∀ p ∈ pages, ∃ r, compose_watermarked_image disk p wm args ov
        = Except.ok r) :
    runPages disk existing wm args ov root pages
      = Except.ok (dryRunTrace disk wm args ov pages)
    ∧ (dryRunTrace disk wm args ov pages).length = pages.length
    ∧ (∀ eff ∈ dryRunTrace disk wm args ov pages,
        ∃ s, eff = Eff.log ( "[dry-run] " ++ s)) := by
  induction pages with
  | nil =>
    exact ⟨rfl, rfl, fun eff heff => absurd heff (List.not_mem_nil eff)⟩
  | cons p ps ih =>
    obtain ⟨ci, hci⟩ := hok p (List.mem_cons_self p ps)
    obtain ⟨ih1, ih2, ih3⟩ := ih (fun x hx => hok x (List.mem_cons_of_mem p hx))
    have htrace : dryRunTrace disk wm args ov (p :: ps)
        = Eff.log ( "[dry-run] " ++ ci.2) :: dryRunTrace disk wm args ov ps := by
      simp [dryRunTrace, List.filterMap_cons, hci, Except.toOption]
    refine ⟨?_, ?_, ?_⟩
    · simp only [runPages, process_file_dry disk existing p wm args ov root ci hdry hci,
        ih1, htrace, List.singleton_append]
    · rw [htrace]
      simp [ih2]
    · rw [htrace]
      intro eff heff
      rcases List.mem_cons.mp heff with rfl | h2
      · exact ⟨ci.2, rfl⟩
      · exact ih3 eff h2

/-- Witness for C9 at a concrete dry run. -/
theorem C9_witness :
    runPages diskFix [] wmFix argsDryFix [] rootFix [goodPage]
      = Except.ok (dryRunTrace diskFix wmFix argsDryFix [] [goodPage]) := by
  refine (C9_dry_run diskFix [] wmFix argsDryFix [] rootFix [goodPage] rfl ?_).1
  intro p hp
  simp only [List.mem_cons, List.not_mem_nil, or_false] at hp
  subst hp
  exact ⟨_, by with_unfolding_all rfl⟩

/-- Claim C10: in a non-dry run, the output root and the output parent
directories are created before the skip/overwrite policy is evaluated, so
a page that is skipped because its output already exists (and overwrite
is off) still leaves both mkdir effects in the trace, in that order,
with no write effect. -/
theorem C10_mkdir_before_skip (disk : List (PathC × Img)) (existing : List PathC)
    (p : PathC) (wm : Img) (args : Args) (ov : PyDict) (root : PathC)
    (ci : Img × String) (hdry : args.dry_run = false)
    (hci : compose_watermarked_image disk p wm args ov = Except.ok ci)
    (hex : output_path_for p root args.output args.sfx args.format ∈ existing)
    (hov : args.overwrite = false) :
    process_file disk existing p wm args ov root
      = Except.ok [Eff.mkdirp args.output,
          Eff.mkdirp (pathParent (output_path_for p root args.output args.sfx args.format)),
          Eff.log ( "[skip exists] "
            ++ pathName (output_path_for p root args.output args.sfx args.format))] := by
  unfold process_file
  rw [hci]
  simp [hdry, hex, hov]

/-- Witness for C10 at a concrete skipped page. -/
theorem C10_witness :
    process_file diskFix [⟨[ "out", "p2.jpg"]⟩] goodPage wmFix argsFix [] rootFix
      = Except.ok [Eff.mkdirp ⟨[ "out"]⟩, Eff.mkdirp ⟨[ "out"]⟩,
          Eff.log "[skip exists] p2.jpg"] := by
  have h := C10_mkdir_before_skip diskFix [⟨[ "out", "p2.jpg"]⟩] goodPage wmFix
    argsFix [] rootFix _ rfl (by with_unfolding_all rfl) (by decide) rfl
  exact h.trans (by with_unfolding_all rfl)

/-- Claim C8: the output path preserves the path of the page relative to
the input root (or uses just the filename when the page is not inside the
input root), inserts the suffix before the extension, and chooses the
extension by format (`keep` preserves, `png` forces `.png`, anything else
forces `.jpg`); in the concrete example `<input>/ch1/sub/p01.jpg` with
format `keep` and empty suffix maps to `<output>/ch1/sub/p01.jpg`. -/
theorem C8_output_path :
    (∀ (root r out : List String) (sfx fmt : String),
        output_path_for ⟨root ++ r⟩ ⟨root⟩ ⟨out⟩ sfx fmt
          = ⟨out ++ r.dropLast ++
              [pyStem (r.getLast?.getD "") ++ sfx
                ++ specExtFor fmt (r.getLast?.getD "")]⟩)
    ∧ (∀ (src root out : List String) (sfx fmt : String),
        root.isPrefixOf src = false →
        output_path_for ⟨src⟩ ⟨root⟩ ⟨out⟩ sfx fmt
          = ⟨out ++ [pyStem (pathName ⟨src⟩) ++ sfx
              ++ specExtFor fmt (pathName ⟨src⟩)]⟩)
    ∧ output_path_for ⟨[ "input", "ch1", "sub", "p01.jpg"]⟩ ⟨[ "input"]⟩
        ⟨[ "output"]⟩ "" "keep"
      = ⟨[ "output", "ch1", "sub", "p01.jpg"]⟩ := by
  refine ⟨?_, ?_, by with_unfolding_all rfl⟩
  · intro root r out sfx fmt
    have hpre : root.isPrefixOf (root ++ r) = true := by
      rw [List.isPrefixOf_iff_prefix]
      exact List.prefix_append root r
    simp only [output_path_for, specExtFor, hpre, if_true, List.drop_left,
      List.append_assoc]
  · intro src root out sfx fmt h
    simp only [output_path_for, specExtFor, h, Bool.false_eq_true, if_false,
      List.dropLast_single, List.append_nil, List.getLast?_singleton,
      Option.getD_some, pathName, List.append_assoc]

/-- Witness for C8 on a page outside the input root. -/
theorem C8_witness :
    output_path_for ⟨[ "elsewhere", "p9.png"]⟩ ⟨[ "input"]⟩ ⟨[ "output"]⟩
        "_wm" "png"
      = ⟨[ "output", "p9_wm.png"]⟩ := by
  have h := C8_output_path.2.1 [ "elsewhere", "p9.png"] [ "input"] [ "output"]
    "_wm" "png" (by decide)
  exact h.trans (by with_unfolding_all rfl)
